import Mathlib

/-!
Shallow embedding of `task_1.py` (contact ledger with birthday scheduling).

Python strings are modelled as `List Char` (`PyStr`); `datetime.date` values
as `Date` records over `Nat`; raised exceptions as `Except PyErr`.  Mutation
of records aliased inside the address-book dictionary is modelled by writing
the updated record back at its key.  The system clock read
(`datetime.today()`) is an explicit `today : Date` parameter.  Dates past
year 9999 (where CPython would raise `OverflowError`) are not modelled; no
theorem below depends on that region.
-/

set_option autoImplicit false

namespace Task1

/-- Python `str`, modelled as a list of characters. -/
abbrev PyStr := List Char

/-- Python exception values raised by the program: `ValueError` (optionally
carrying a message) and `AttributeError`. -/
inductive PyErr where
  | valueError (msg : Option String)
  | attributeError (msg : String)
deriving DecidableEq, Repr

/-- Numeric value of a digit string (used after a regex guaranteed digits),
as Python `int()` computes it. -/
def toNatChars (s : PyStr) : Nat :=
  s.foldl (fun n c => 10 * n + (c.toNat - 48)) 0

/-- `datetime.date`: a calendar date as plain year/month/day numbers. -/
structure Date where
  year : Nat
  month : Nat
  day : Nat
deriving DecidableEq, Repr

/-- Gregorian leap-year rule, as in `datetime`. -/
def isLeap (y : Nat) : Bool :=
  (y % 4 == 0 && y % 100 != 0) || y % 400 == 0

/-- Days in a month of a given year, as in `datetime`. -/
def daysInMonth (y m : Nat) : Nat :=
  if m = 2 then (if isLeap y then 29 else 28)
  else if m = 4 ∨ m = 6 ∨ m = 9 ∨ m = 11 then 30
  else 31

/-- Total days in months `1..m` of year `y`. -/
def monthSum (y : Nat) : Nat → Nat
  | 0 => 0
  | m + 1 => monthSum y m + daysInMonth y (m + 1)

/-- `timetuple().tm_yday`: ordinal day within the year (1-based). -/
def dayOfYear (d : Date) : Nat :=
  monthSum d.year (d.month - 1) + d.day

/-- Days in a year. -/
def daysInYear (y : Nat) : Nat :=
  if isLeap y then 366 else 365

/-- Days before January 1 of year `y` (CPython `_days_before_year`). -/
def daysBeforeYear (y : Nat) : Nat :=
  (y - 1) * 365 + (y - 1) / 4 - (y - 1) / 100 + (y - 1) / 400

/-- `date.toordinal()`: proleptic Gregorian ordinal, day 1 = 0001-01-01. -/
def toOrdinal (d : Date) : Nat :=
  daysBeforeYear d.year + dayOfYear d

/-- `timetuple().tm_wday`: weekday with Monday = 0 … Sunday = 6. -/
def weekday (d : Date) : Nat :=
  (toOrdinal d + 6) % 7

/-- `_check_date_fields` of `datetime.date`: year 1..9999, month 1..12,
day 1..days-in-month. -/
def validDate (y m d : Nat) : Bool :=
  1 ≤ y && y ≤ 9999 && 1 ≤ m && m ≤ 12 && 1 ≤ d && d ≤ daysInMonth y m

/-- Well-formed year/month/day combination without the year-9999 cap
(used only to push date arithmetic through `nextDay`). -/
def validYMD (y m d : Nat) : Bool :=
  1 ≤ y && 1 ≤ m && m ≤ 12 && 1 ≤ d && d ≤ daysInMonth y m

/-- The calendar day after `d` (rolling over month and year ends). -/
def nextDay (d : Date) : Date :=
  if d.day < daysInMonth d.year d.month then ⟨d.year, d.month, d.day + 1⟩
  else if d.month < 12 then ⟨d.year, d.month + 1, 1⟩
  else ⟨d.year + 1, 1, 1⟩

/-- `date + timedelta(days = n)`. -/
def addDays (d : Date) : Nat → Date
  | 0 => d
  | n + 1 => nextDay (addDays d n)

/-- `date.replace(year = y)`: rebuilds the date, re-validating the fields
(so 29.02 re-anchored to a non-leap year raises `ValueError`). -/
def replaceYear (d : Date) (y : Nat) : Except PyErr Date :=
  if validDate y d.month d.day then Except.ok ⟨y, d.month, d.day⟩
  else Except.error (PyErr.valueError (some "day is out of range for month"))

/-- Two-digit zero-padded decimal rendering (strftime `%d`, `%m`). -/
def fmt2 (n : Nat) : PyStr :=
  [Char.ofNat (48 + n / 10 % 10), Char.ofNat (48 + n % 10)]

/-- Four-digit zero-padded decimal rendering (strftime `%Y`, for years ≤ 9999). -/
def fmt4 (n : Nat) : PyStr :=
  [Char.ofNat (48 + n / 1000 % 10), Char.ofNat (48 + n / 100 % 10),
   Char.ofNat (48 + n / 10 % 10), Char.ofNat (48 + n % 10)]

/-- `date.strftime("%d.%m.%Y")`. -/
def strftime_dmY (d : Date) : PyStr :=
  fmt2 d.day ++ '.' :: (fmt2 d.month ++ '.' :: fmt4 d.year)

/-! ### Fields: `Phone` and `Birthday` -/

/-- A `Phone` field: wraps the validated string value. -/
structure Phone where
  value : PyStr
deriving DecidableEq, Repr

/-- `Phone.is_valid`: `len(self.value) == 10 and self.value.isdigit()`.
`str.isdigit` is true for a non-empty all-digit string (decimal digits in
the modelled ASCII range). -/
def Phone.is_valid (s : PyStr) : Bool :=
  s.length == 10 && (!s.isEmpty && s.all Char.isDigit)

/-- `Phone(value)`: `Field.__init__` stores the value, then raises a bare
`ValueError` when `is_valid` fails. -/
def Phone.mk' (s : PyStr) : Except PyErr Phone :=
  if Phone.is_valid s then Except.ok ⟨s⟩
  else Except.error (PyErr.valueError none)

/-- `str.split` on the literal dot, as the compiled `strptime` pattern
splits the input (the digit groups of `%d.%m.%Y` cannot contain a dot). -/
def splitDots : PyStr → List PyStr
  | [] => [[]]
  | c :: rest =>
    if c = '.' then [] :: splitDots rest
    else
      match splitDots rest with
      | [] => [[c]]
      | s :: ss => (c :: s) :: ss

/-- Re-join the pieces produced by `splitDots` with dots. -/
def joinDots : List PyStr → PyStr
  | [] => []
  | [s] => s
  | s :: rest => s ++ '.' :: joinDots rest

/-- CPython `_strptime` group for `%d`: `3[01]|[12]\d|0[1-9]|[1-9]`,
i.e. one or two digits with value 1..31 (leading zero optional). -/
def matchDay (s : PyStr) : Bool :=
  !s.isEmpty && s.length ≤ 2 && s.all Char.isDigit &&
    (1 ≤ toNatChars s && toNatChars s ≤ 31)

/-- CPython `_strptime` group for `%m`: `1[0-2]|0[1-9]|[1-9]`,
i.e. one or two digits with value 1..12 (leading zero optional). -/
def matchMonth (s : PyStr) : Bool :=
  !s.isEmpty && s.length ≤ 2 && s.all Char.isDigit &&
    (1 ≤ toNatChars s && toNatChars s ≤ 12)

/-- CPython `_strptime` group for `%Y`: exactly four digits. -/
def matchYear (s : PyStr) : Bool :=
  s.length == 4 && s.all Char.isDigit

/-- `datetime.strptime(value, "%d.%m.%Y")` up to the regex stage: the whole
string must be day-group, dot, month-group, dot, year-group; yields the
numeric `(day, month, year)`. -/
def strptime_dmY (s : PyStr) : Option (Nat × Nat × Nat) :=
  match splitDots s with
  | [ds, ms, ys] =>
    if matchDay ds && matchMonth ms && matchYear ys then
      some (toNatChars ds, toNatChars ms, toNatChars ys)
    else none
  | _ => none

/-- The message attached to the `ValueError` raised by `Birthday.__init__`. -/
def birthdayErrMsg : String := "Invalid date format. Use DD.MM.YYYY"

/-- `Birthday(value)`: parse via `strptime("%d.%m.%Y")` and build the
`date` (which re-validates day-of-month and the year range); any
`ValueError` on the way is replaced by one carrying the format hint. -/
def Birthday.mk' (s : PyStr) : Except PyErr Date :=
  match strptime_dmY s with
  | none => Except.error (PyErr.valueError (some birthdayErrMsg))
  | some (d, m, y) =>
    if validDate y m d then Except.ok ⟨y, m, d⟩
    else Except.error (PyErr.valueError (some birthdayErrMsg))

/-! ### `Record` -/

/-- One contact: a name (its `Name` field validates trivially, so the bare
string is kept), an ordered phone list, an optional birthday. -/
structure Record where
  name : PyStr
  phones : List Phone
  birthday : Option Date
deriving DecidableEq, Repr

/-- `Record(name)`: empty phone list, no birthday. -/
def Record.new (name : PyStr) : Record :=
  ⟨name, [], none⟩

/-- `Record.__find_phone_index__`: scan all indices in order, remembering
the most recent match (so the last occurrence wins). -/
def Record.find_phone_index (r : Record) (phone_str : PyStr) : Option Nat :=
  r.phones.enum.foldl
    (fun acc p => if p.2.value = phone_str then some p.1 else acc) none

/-- `Record.add_phone`: construct the `Phone` (may raise) and append it. -/
def Record.add_phone (r : Record) (phone : PyStr) : Except PyErr Record :=
  match Phone.mk' phone with
  | Except.error e => Except.error e
  | Except.ok p => Except.ok { r with phones := r.phones ++ [p] }

/-- `Record.remove_phone`: bare `ValueError` when absent, else delete the
found index. -/
def Record.remove_phone (r : Record) (phone : PyStr) : Except PyErr Record :=
  match r.find_phone_index phone with
  | none => Except.error (PyErr.valueError none)
  | some i => Except.ok { r with phones := r.phones.eraseIdx i }

/-- `Record.edit_phone`: bare `ValueError` when absent, else overwrite the
found index with a freshly constructed `Phone` (which may itself raise). -/
def Record.edit_phone (r : Record) (old_phone new_phone : PyStr) :
    Except PyErr Record :=
  match r.find_phone_index old_phone with
  | none => Except.error (PyErr.valueError none)
  | some i =>
    match Phone.mk' new_phone with
    | Except.error e => Except.error e
    | Except.ok p => Except.ok { r with phones := r.phones.set i p }

/-- `Record.find_phone`: bare `ValueError` when absent, else the entry. -/
def Record.find_phone (r : Record) (phone : PyStr) : Except PyErr Phone :=
  match r.find_phone_index phone with
  | none => Except.error (PyErr.valueError none)
  | some i => Except.ok (r.phones.getD i ⟨[]⟩)

/-- `Record.add_birthday`: construct the `Birthday` (may raise) and set it. -/
def Record.add_birthday (r : Record) (birthday : PyStr) :
    Except PyErr Record :=
  match Birthday.mk' birthday with
  | Except.error e => Except.error e
  | Except.ok d => Except.ok { r with birthday := some d }

/-! ### `AddressBook` -/

/-- The address book: a `dict[str, Record]` in insertion order. -/
abbrev AddressBook := List (PyStr × Record)

/-- `dict.__setitem__`: update the existing key in place or append. -/
def dictSet : AddressBook → PyStr → Record → AddressBook
  | [], k, v => [(k, v)]
  | (k', v') :: rest, k, v =>
    if k' = k then (k, v) :: rest else (k', v') :: dictSet rest k v

/-- `dict.__delitem__` on a present key (first occurrence; keys of a dict
are unique). -/
def dictDel : AddressBook → PyStr → AddressBook
  | [], _ => []
  | (k', v') :: rest, k =>
    if k' = k then rest else (k', v') :: dictDel rest k

/-- `AddressBook.add_record`: `self.data[record.name.value] = record`. -/
def AddressBook.add_record (book : AddressBook) (record : Record) :
    AddressBook :=
  dictSet book record.name record

/-- `AddressBook.find`: the record at `name`, or `None`. -/
def AddressBook.find : AddressBook → PyStr → Option Record
  | [], _ => none
  | (k, v) :: rest, name =>
    if k = name then some v else AddressBook.find rest name

/-- `AddressBook.delete`: delete the key if present, else do nothing. -/
def AddressBook.delete (book : AddressBook) (name : PyStr) : AddressBook :=
  match AddressBook.find book name with
  | some _ => dictDel book name
  | none => book

/-- One reported entry `{"name": …, "congratulation_date": …}`. -/
structure BdEntry where
  name : PyStr
  congratulation_date : PyStr
deriving DecidableEq, Repr

/-- The congratulation date the loop body computes for an in-window
re-anchored birthday: shifted to the next Monday when it falls on
Saturday (`tm_wday = 5`) or Sunday (`tm_wday = 6`). -/
def congratulationDate (birthday : Date) : Date :=
  if weekday birthday == 5 || weekday birthday == 6 then
    addDays birthday (7 - weekday birthday)
  else birthday

/-- The loop of `get_upcoming_birthdays` over the remaining records.
`record.birthday.value` on a record without a birthday raises
`AttributeError`; `date.replace` may raise `ValueError`; either aborts
the whole call. -/
def getUpcomingAux (today plusWeek : Date) :
    List (PyStr × Record) → Except PyErr (List BdEntry)
  | [] => Except.ok []
  | (_, record) :: rest =>
    match record.birthday with
    | none =>
      Except.error
        (PyErr.attributeError "NoneType object has no attribute value")
    | some bd =>
      match replaceYear bd today.year with
      | Except.error e => Except.error e
      | Except.ok birthday =>
        if dayOfYear today ≤ dayOfYear birthday &&
            dayOfYear birthday ≤ dayOfYear plusWeek then
          match getUpcomingAux today plusWeek rest with
          | Except.error e => Except.error e
          | Except.ok l =>
            Except.ok
              (⟨record.name, strftime_dmY (congratulationDate birthday)⟩ :: l)
        else getUpcomingAux today plusWeek rest

/-- `AddressBook.get_upcoming_birthdays`, with the `datetime.today()` clock
read made an explicit parameter. -/
def AddressBook.get_upcoming_birthdays (today : Date) (book : AddressBook) :
    Except PyErr (List BdEntry) :=
  getUpcomingAux today (addDays today 7) book

/-! ### Command handlers (wrapped by `input_error`) -/

/-- `add_contact`: find-or-create the record, add the phone, re-insert.
The `input_error` decorator turns a `ValueError` into the fixed string;
the returned book reflects what the mutation left behind. -/
def add_contact (book : AddressBook) (name phone : PyStr) :
    AddressBook × String :=
  let record := (AddressBook.find book name).getD (Record.new name)
  match record.add_phone phone with
  | Except.error _ => (book, "Invalid arguments.")
  | Except.ok r => (AddressBook.add_record book r, "Contact added.")

/-- `change_phone`: edit in the found record (mutated in place at its key). -/
def change_phone (book : AddressBook) (name old_phone new_phone : PyStr) :
    AddressBook × String :=
  match AddressBook.find book name with
  | none => (book, "name does not exist. Add it before changing it.")
  | some record =>
    match record.edit_phone old_phone new_phone with
    | Except.error _ => (book, "Invalid arguments.")
    | Except.ok r => (dictSet book name r, "Contact updated.")

/-- `add_birthday` handler: a missing record is created and inserted into
the book BEFORE the birthday string is validated, so a bad date leaves the
fresh empty record behind. -/
def add_birthday (book : AddressBook) (name birthday : PyStr) :
    AddressBook × String :=
  let found := AddressBook.find book name
  let record := found.getD (Record.new name)
  let book1 :=
    match found with
    | some _ => book
    | none => AddressBook.add_record book record
  match record.add_birthday birthday with
  | Except.error _ => (book1, "Invalid arguments.")
  | Except.ok r => (AddressBook.add_record book1 r, "Birthday added.")

/-- Ledger states reachable from the empty book through the public
mutating operations. -/
inductive Reachable : AddressBook → Prop where
  | empty : Reachable []
  | add_record (b : AddressBook) (r : Record) :
      Reachable b → Reachable (AddressBook.add_record b r)
  | delete (b : AddressBook) (n : PyStr) :
      Reachable b → Reachable (AddressBook.delete b n)
  | add_contact (b : AddressBook) (n p : PyStr) :
      Reachable b → Reachable (add_contact b n p).1
  | change_phone (b : AddressBook) (n o p : PyStr) :
      Reachable b → Reachable (change_phone b n o p).1
  | add_birthday (b : AddressBook) (n s : PyStr) :
      Reachable b → Reachable (add_birthday b n s).1

/-- Modelled from the spec: a "well-formed DD.MM.YYYY string" in the strict
sense of the claim — exactly two digits for day, two for month, four for
year, separated by dots, denoting a real calendar date. -/
def spec_wellformed_DDMMYYYY (s : PyStr) : Bool :=
  match splitDots s with
  | [ds, ms, ys] =>
    ds.length == 2 && ds.all Char.isDigit &&
    ms.length == 2 && ms.all Char.isDigit &&
    ys.length == 4 && ys.all Char.isDigit &&
    validDate (toNatChars ys) (toNatChars ms) (toNatChars ds)
  | _ => false

/-- A record that carries a birthday which is a real calendar date (all
birthdays produced by `Birthday.mk'` are of this shape). -/
def hasValidBirthday (r : Record) : Bool :=
  match r.birthday with
  | some b => validDate b.year b.month b.day
  | none => false

/-! ### Date arithmetic lemmas -/

theorem daysInMonth_pos (y m : Nat) : 1 ≤ daysInMonth y m := by
  unfold daysInMonth
  split_ifs <;> omega

theorem daysInMonth_le_31 (y m : Nat) : daysInMonth y m ≤ 31 := by
  unfold daysInMonth
  split_ifs <;> omega

theorem monthSum_twelve (y : Nat) : monthSum y 12 = daysInYear y := by
  cases h : isLeap y <;>
    simp [monthSum, daysInMonth, daysInYear, h]

theorem monthSum_succ (y m : Nat) :
    monthSum y (m + 1) = monthSum y m + daysInMonth y (m + 1) := rfl

theorem daysBeforeYear_succ (y : Nat) (hy : 1 ≤ y) :
    daysBeforeYear (y + 1) = daysBeforeYear y + daysInYear y := by
  obtain ⟨k, rfl⟩ : ∃ k, y = k + 1 := ⟨y - 1, by omega⟩
  unfold daysBeforeYear daysInYear isLeap
  have h4 := Nat.succ_div k 4
  have h100 := Nat.succ_div k 100
  have h400 := Nat.succ_div k 400
  simp only [Bool.or_eq_true, Bool.and_eq_true, beq_iff_eq, bne_iff_ne,
    ne_eq]
  split_ifs at h4 h100 h400 ⊢ <;> omega

theorem validYMD_spell (y m d : Nat) :
    validYMD y m d = true ↔
      1 ≤ y ∧ 1 ≤ m ∧ m ≤ 12 ∧ 1 ≤ d ∧ d ≤ daysInMonth y m := by
  unfold validYMD
  simp [Bool.and_eq_true, decide_eq_true_eq, and_assoc]

theorem validDate_spell (y m d : Nat) :
    validDate y m d = true ↔
      1 ≤ y ∧ y ≤ 9999 ∧ 1 ≤ m ∧ m ≤ 12 ∧ 1 ≤ d ∧ d ≤ daysInMonth y m := by
  unfold validDate
  simp [Bool.and_eq_true, decide_eq_true_eq, and_assoc]

theorem validDate_validYMD {y m d : Nat} (h : validDate y m d = true) :
    validYMD y m d = true := by
  rw [validDate_spell] at h
  rw [validYMD_spell]
  tauto

theorem toOrdinal_nextDay (d : Date)
    (h : validYMD d.year d.month d.day = true) :
    toOrdinal (nextDay d) = toOrdinal d + 1 := by
  obtain ⟨hy, hm1, hm12, hd1, hdm⟩ := (validYMD_spell _ _ _).1 h
  unfold nextDay
  split_ifs with h1 h2
  · simp only [toOrdinal, dayOfYear]
    omega
  · have hde : d.day = daysInMonth d.year d.month := by omega
    have hms : d.month - 1 + 1 = d.month := by omega
    have hsum : monthSum d.year d.month =
        monthSum d.year (d.month - 1) + daysInMonth d.year d.month := by
      rw [← hms, monthSum_succ, hms]
    simp only [toOrdinal, dayOfYear]
    simp only [Nat.add_sub_cancel]
    omega
  · have hm : d.month = 12 := by omega
    rw [hm] at h1
    have h31 : daysInMonth d.year 12 = 31 := by simp [daysInMonth]
    have hde : d.day = 31 := by
      rw [hm] at hdm
      omega
    simp only [toOrdinal, dayOfYear, hm, hde]
    rw [daysBeforeYear_succ d.year hy, ← monthSum_twelve d.year]
    cases h : isLeap d.year <;> simp [monthSum, daysInMonth, h]

theorem validYMD_nextDay (d : Date)
    (h : validYMD d.year d.month d.day = true) :
    validYMD (nextDay d).year (nextDay d).month (nextDay d).day = true := by
  obtain ⟨hy, hm1, hm12, hd1, hdm⟩ := (validYMD_spell _ _ _).1 h
  unfold nextDay
  split_ifs with h1 h2
  · show validYMD d.year d.month (d.day + 1) = true
    rw [validYMD_spell]
    exact ⟨hy, hm1, hm12, by omega, by omega⟩
  · show validYMD d.year (d.month + 1) 1 = true
    rw [validYMD_spell]
    exact ⟨hy, by omega, by omega, le_refl 1, daysInMonth_pos _ _⟩
  · show validYMD (d.year + 1) 1 1 = true
    rw [validYMD_spell]
    exact ⟨by omega, le_refl 1, by omega, le_refl 1, daysInMonth_pos _ _⟩

theorem toOrdinal_addDays (d : Date)
    (h : validYMD d.year d.month d.day = true) (n : Nat) :
    toOrdinal (addDays d n) = toOrdinal d + n ∧
      validYMD (addDays d n).year (addDays d n).month
        (addDays d n).day = true := by
  induction n with
  | zero => exact ⟨rfl, h⟩
  | succ k ih =>
    refine ⟨?_, validYMD_nextDay _ ih.2⟩
    show toOrdinal (nextDay (addDays d k)) = toOrdinal d + (k + 1)
    rw [toOrdinal_nextDay _ ih.2, ih.1]
    omega

theorem weekday_addDays (d : Date)
    (h : validYMD d.year d.month d.day = true) (n : Nat) :
    weekday (addDays d n) = (weekday d + n) % 7 := by
  unfold weekday
  rw [(toOrdinal_addDays d h n).1]
  omega

/-! ### Dictionary lemmas -/

theorem find_dictSet_self (book : AddressBook) (k : PyStr) (v : Record) :
    AddressBook.find (dictSet book k v) k = some v := by
  induction book with
  | nil => simp [dictSet, AddressBook.find]
  | cons p rest ih =>
    obtain ⟨k', v'⟩ := p
    by_cases h : k' = k
    · simp [dictSet, h, AddressBook.find]
    · simp [dictSet, h, AddressBook.find, ih]

theorem mem_keys_dictSet {book : AddressBook} {k a : PyStr} {v : Record}
    (h : a ∈ (dictSet book k v).map Prod.fst) :
    a ∈ book.map Prod.fst ∨ a = k := by
  induction book with
  | nil => simpa [dictSet] using h
  | cons p rest ih =>
    obtain ⟨k', v'⟩ := p
    by_cases hk : k' = k
    · simp only [dictSet, if_pos hk, List.map_cons, List.mem_cons] at h ⊢
      subst hk
      tauto
    · simp only [dictSet, if_neg hk, List.map_cons, List.mem_cons] at h ⊢
      rcases h with h | h
      · exact Or.inl (Or.inl h)
      · rcases ih h with h' | h'
        · exact Or.inl (Or.inr h')
        · exact Or.inr h'

theorem nodup_keys_dictSet {book : AddressBook} {k : PyStr} {v : Record}
    (h : (book.map Prod.fst).Nodup) :
    ((dictSet book k v).map Prod.fst).Nodup := by
  induction book with
  | nil => simp [dictSet]
  | cons p rest ih =>
    obtain ⟨k', v'⟩ := p
    simp only [List.map_cons, List.nodup_cons] at h
    by_cases hk : k' = k
    · subst hk
      rw [show dictSet ((k', v') :: rest) k' v = (k', v) :: rest from by
        rw [show dictSet ((k', v') :: rest) k' v =
            (if k' = k' then (k', v) :: rest
             else (k', v') :: dictSet rest k' v) from rfl, if_pos rfl]]
      simp only [List.map_cons, List.nodup_cons]
      exact h
    · simp only [dictSet, if_neg hk, List.map_cons, List.nodup_cons]
      refine ⟨fun hmem => ?_, ih h.2⟩
      rcases mem_keys_dictSet hmem with h' | h'
      · exact h.1 h'
      · exact hk h'

theorem find_eq_none_of_not_mem_keys {book : AddressBook} {k : PyStr}
    (h : k ∉ book.map Prod.fst) : AddressBook.find book k = none := by
  induction book with
  | nil => rfl
  | cons p rest ih =>
    obtain ⟨k', v'⟩ := p
    simp only [List.map_cons, List.mem_cons] at h
    push_neg at h
    simp only [AddressBook.find, if_neg (Ne.symm h.1)]
    exact ih h.2

theorem find_dictDel_self {book : AddressBook} {k : PyStr}
    (h : (book.map Prod.fst).Nodup) :
    AddressBook.find (dictDel book k) k = none := by
  induction book with
  | nil => rfl
  | cons p rest ih =>
    obtain ⟨k', v'⟩ := p
    simp only [List.map_cons, List.nodup_cons] at h
    by_cases hk : k' = k
    · subst hk
      simp only [dictDel, if_pos rfl]
      exact find_eq_none_of_not_mem_keys h.1
    · simp only [dictDel, if_neg hk, AddressBook.find, if_neg hk]
      exact ih h.2

theorem find_mem {book : AddressBook} {name : PyStr} {r : Record}
    (h : AddressBook.find book name = some r) : (name, r) ∈ book := by
  induction book with
  | nil => exact absurd h (by simp [AddressBook.find])
  | cons p rest ih =>
    obtain ⟨k', v'⟩ := p
    rw [show AddressBook.find ((k', v') :: rest) name =
        (if k' = name then some v' else AddressBook.find rest name) from
      rfl] at h
    by_cases hk : k' = name
    · rw [if_pos hk] at h
      injection h with h
      subst hk
      subst h
      exact List.mem_cons_self _ _
    · rw [if_neg hk] at h
      exact List.mem_cons_of_mem _ (ih h)

theorem mem_dictSet {book : AddressBook} {k : PyStr} {v : Record}
    {p : PyStr × Record} (h : p ∈ dictSet book k v) :
    p ∈ book ∨ p = (k, v) := by
  induction book with
  | nil => simpa [dictSet] using h
  | cons q rest ih =>
    obtain ⟨k', v'⟩ := q
    by_cases hk : k' = k
    · simp only [dictSet, if_pos hk, List.mem_cons] at h ⊢
      tauto
    · simp only [dictSet, if_neg hk, List.mem_cons] at h ⊢
      rcases h with h | h
      · exact Or.inl (Or.inl h)
      · rcases ih h with h' | h'
        · exact Or.inl (Or.inr h')
        · exact Or.inr h'

theorem mem_dictDel {book : AddressBook} {k : PyStr}
    {p : PyStr × Record} (h : p ∈ dictDel book k) : p ∈ book := by
  induction book with
  | nil => simpa [dictDel] using h
  | cons q rest ih =>
    obtain ⟨k', v'⟩ := q
    by_cases hk : k' = k
    · simp only [dictDel, if_pos hk] at h
      exact List.mem_cons_of_mem _ h
    · simp only [dictDel, if_neg hk, List.mem_cons] at h ⊢
      tauto

/-! ### `find_phone_index` returns the last match -/

theorem foldl_enumFrom_no_match (v : PyStr) (l : List Phone) :
    ∀ (n : Nat) (acc : Option Nat),
      (∀ p ∈ l, p.value ≠ v) →
      (List.enumFrom n l).foldl
        (fun acc q => if q.2.value = v then some q.1 else acc) acc = acc := by
  induction l with
  | nil => intro n acc _; rfl
  | cons p t ih =>
    intro n acc h
    simp only [List.enumFrom, List.foldl_cons]
    rw [if_neg (h p (List.mem_cons_self p t))]
    exact ih (n + 1) acc (fun q hq => h q (List.mem_cons_of_mem p hq))

theorem foldl_enumFrom_last (v : PyStr) (l : List Phone) :
    ∀ (n : Nat) (acc : Option Nat) (i : Nat) (hi : i < l.length),
      (l.get ⟨i, hi⟩).value = v →
      (∀ j (hj : j < l.length), i < j → (l.get ⟨j, hj⟩).value ≠ v) →
      (List.enumFrom n l).foldl
        (fun acc q => if q.2.value = v then some q.1 else acc) acc =
        some (n + i) := by
  induction l with
  | nil =>
    intro n acc i hi
    exact absurd hi (by simp)
  | cons p t ih =>
    intro n acc i hi hv hlast
    simp only [List.enumFrom, List.foldl_cons]
    cases i with
    | zero =>
      rw [if_pos (by simpa using hv), Nat.add_zero]
      apply foldl_enumFrom_no_match
      intro q hq
      obtain ⟨⟨m, hm⟩, rfl⟩ := List.mem_iff_get.1 hq
      have h2 := hlast (m + 1) (by simpa using Nat.succ_lt_succ hm)
        (Nat.succ_pos m)
      simpa using h2
    | succ i' =>
      have hi' : i' < t.length := by simpa using Nat.lt_of_succ_lt_succ hi
      have hv' : (t.get ⟨i', hi'⟩).value = v := by simpa using hv
      have hlast' : ∀ j (hj : j < t.length), i' < j →
          (t.get ⟨j, hj⟩).value ≠ v := by
        intro j hj hij
        have := hlast (j + 1) (by simpa using Nat.succ_lt_succ hj)
          (Nat.succ_lt_succ hij)
        simpa using this
      rw [ih (n + 1) _ i' hi' hv' hlast']
      congr 1
      omega

theorem find_phone_index_last (r : Record) (v : PyStr) (i : Nat)
    (hi : i < r.phones.length)
    (hv : (r.phones.get ⟨i, hi⟩).value = v)
    (hlast : ∀ j (hj : j < r.phones.length), i < j →
      (r.phones.get ⟨j, hj⟩).value ≠ v) :
    r.find_phone_index v = some i := by
  unfold Record.find_phone_index
  rw [List.enum]
  simpa using foldl_enumFrom_last v r.phones 0 none i hi hv hlast

/-! ### Further helper lemmas for the claims -/

theorem phone_mk_ok {s : PyStr} (h : Phone.is_valid s = true) :
    Phone.mk' s = Except.ok ⟨s⟩ := by
  unfold Phone.mk'
  rw [if_pos h]

theorem phone_mk_error {s : PyStr} (h : Phone.is_valid s = false) :
    Phone.mk' s = Except.error (PyErr.valueError none) := by
  unfold Phone.mk'
  rw [if_neg (by simp [h])]

theorem mem_delete {b : AddressBook} {n : PyStr} {p : PyStr × Record}
    (hp : p ∈ AddressBook.delete b n) : p ∈ b := by
  unfold AddressBook.delete at hp
  cases hf : AddressBook.find b n with
  | none => rw [hf] at hp; exact hp
  | some r => rw [hf] at hp; exact mem_dictDel hp

theorem inv_add_record {b : AddressBook} {r : Record}
    (ih : ∀ p ∈ b, p.1 = p.2.name) :
    ∀ p ∈ AddressBook.add_record b r, p.1 = p.2.name := by
  intro p hp
  rcases mem_dictSet hp with h' | h'
  · exact ih p h'
  · subst h'
    rfl

theorem daysInMonth_le_2024 (y m : Nat) :
    daysInMonth y m ≤ daysInMonth 2024 m := by
  have h2024 : isLeap 2024 = true := by decide
  unfold daysInMonth
  split_ifs <;> simp_all

theorem replaceYear_2024 {b : Date}
    (h : validDate b.year b.month b.day = true) :
    replaceYear b 2024 = Except.ok ⟨2024, b.month, b.day⟩ := by
  obtain ⟨hy, hy2, hm1, hm12, hd1, hdm⟩ := (validDate_spell _ _ _).1 h
  unfold replaceYear
  rw [if_pos]
  rw [validDate_spell]
  exact ⟨by omega, by omega, hm1, hm12, hd1,
    le_trans hdm (daysInMonth_le_2024 _ _)⟩

theorem C5_aux (l : List (PyStr × Record))
    (hb : ∀ p ∈ l, hasValidBirthday p.2 = true) :
    getUpcomingAux ⟨2024, 12, 29⟩ ⟨2025, 1, 5⟩ l = Except.ok [] := by
  induction l with
  | nil => rfl
  | cons p rest ih =>
    obtain ⟨k, record⟩ := p
    have hv := hb (k, record) (List.mem_cons_self _ _)
    unfold hasValidBirthday at hv
    cases hbd : record.birthday with
    | none =>
      rw [hbd] at hv
      exact Bool.noConfusion hv
    | some b =>
      rw [hbd] at hv
      unfold getUpcomingAux
      rw [hbd]
      dsimp only
      rw [replaceYear_2024 hv]
      dsimp only
      rw [if_neg]
      · exact ih (fun q hq => hb q (List.mem_cons_of_mem _ hq))
      · intro hcond
        simp only [Bool.and_eq_true, decide_eq_true_eq] at hcond
        have h1 : dayOfYear ⟨2024, 12, 29⟩ = 364 := by decide
        have h2 : dayOfYear ⟨2025, 1, 5⟩ = 5 := by decide
        omega

/-! ### The claims -/

/-- C1: the spec demands that a record with no birthday be skipped by the
upcoming-birthdays query without failing the whole operation, but the code
dereferences `record.birthday.value` unconditionally: on a book holding a
single birthday-less record the call raises `AttributeError` instead of
returning a (possibly empty) result. -/
theorem C1_missing_birthday_crashes :
    AddressBook.get_upcoming_birthdays ⟨2024, 6, 10⟩
        [("Alice".data, Record.new "Alice".data)] =
      Except.error
        (PyErr.attributeError "NoneType object has no attribute value") := by
  rfl

/-- C2 counterexample: a not-found failure (`remove_phone` of an absent
value) and a validation failure (bad phone string) both produce the very
same bare `ValueError`, so a caller cannot tell which of the two occurred;
the claimed distinguishable `InvalidValue`/`NotFound` kinds do not exist. -/
theorem C2_counterexample :
    Record.remove_phone (Record.new "Bob".data) "0123456789".data =
        Except.error (PyErr.valueError none) ∧
      Phone.mk' "abc".data = Except.error (PyErr.valueError none) :=
  ⟨rfl, rfl⟩

/-- C2 amended: validation failures and not-found conditions all raise
`ValueError`; the bare ones (phone validation, phone not-found in
remove/edit/find) are literally identical and hence not distinguishable —
only the birthday parse error differs, by its message.  Absence in the
ledger `find`/`delete` is normal control flow (a `None` result / a no-op),
not an error. -/
theorem C2_amended (r : Record) (book : AddressBook)
    (s t u name : PyStr)
    (hnf : r.find_phone_index s = none)
    (hbad : Phone.is_valid t = false)
    (hdate : strptime_dmY u = none)
    (habs : AddressBook.find book name = none) :
    Record.remove_phone r s = Except.error (PyErr.valueError none) ∧
    Record.edit_phone r s t = Except.error (PyErr.valueError none) ∧
    Record.find_phone r s = Except.error (PyErr.valueError none) ∧
    Phone.mk' t = Except.error (PyErr.valueError none) ∧
    Birthday.mk' u = Except.error (PyErr.valueError (some birthdayErrMsg)) ∧
    AddressBook.delete book name = book := by
  refine ⟨?_, ?_, ?_, phone_mk_error hbad, ?_, ?_⟩
  · unfold Record.remove_phone
    rw [hnf]
  · unfold Record.edit_phone
    rw [hnf]
  · unfold Record.find_phone
    rw [hnf]
  · unfold Birthday.mk'
    rw [hdate]
  · unfold AddressBook.delete
    rw [habs]

/-- Witness for C2 amended at concrete inputs. -/
theorem C2_amended_witness :
    Record.remove_phone (Record.new "Eve".data) "5555555555".data =
      Except.error (PyErr.valueError none) :=
  (C2_amended (Record.new "Eve".data) [] "5555555555".data "x".data
    "y".data "Eve".data (by decide) (by decide) (by decide) (by decide)).1

/-- C3: when the searched value occurs at several positions of the phone
list, the internal lookup returns the index of the LAST occurrence;
`remove_phone` then deletes exactly that occurrence (length shrinks by
one, the other entries keep their relative order) and `edit_phone`
replaces exactly that occurrence in place (same index, length unchanged). -/
theorem C3_last_occurrence (r : Record) (v w : PyStr) (i : Nat)
    (hi : i < r.phones.length)
    (hv : (r.phones.get ⟨i, hi⟩).value = v)
    (hlast : ∀ j (hj : j < r.phones.length), i < j →
      (r.phones.get ⟨j, hj⟩).value ≠ v)
    (hmulti : ∃ k, ∃ hk : k < r.phones.length,
      k < i ∧ (r.phones.get ⟨k, hk⟩).value = v)
    (hw : Phone.is_valid w = true) :
    r.find_phone_index v = some i ∧
    r.remove_phone v = Except.ok { r with phones := r.phones.eraseIdx i } ∧
    (r.phones.eraseIdx i).length = r.phones.length - 1 ∧
    r.phones.eraseIdx i = r.phones.take i ++ r.phones.drop (i + 1) ∧
    r.edit_phone v w = Except.ok { r with phones := r.phones.set i ⟨w⟩ } ∧
    (r.phones.set i ⟨w⟩).length = r.phones.length := by
  have hfpi := find_phone_index_last r v i hi hv hlast
  refine ⟨hfpi, ?_, ?_, List.eraseIdx_eq_take_drop_succ _ _, ?_,
    List.length_set _ _ _⟩
  · unfold Record.remove_phone
    rw [hfpi]
  · rw [List.length_eraseIdx, if_pos hi]
  · unfold Record.edit_phone
    rw [hfpi, phone_mk_ok hw]

/-- Witness for C3 at a concrete record with a duplicated phone value. -/
theorem C3_witness :
    (⟨"R".data,
      [⟨"1111111111".data⟩, ⟨"2222222222".data⟩, ⟨"1111111111".data⟩],
      none⟩ : Record).find_phone_index "1111111111".data = some 2 :=
  (C3_last_occurrence _ "1111111111".data "3333333333".data 2 (by decide)
    (by decide) (by decide) ⟨0, by decide, by decide, by decide⟩
    (by decide)).1

/-- C5: the upcoming-birthdays window re-anchors every birthday to the
current year only.  With today = 29.12.2024 the query returns the empty
list (without error) for EVERY book of records with (valid) birthdays —
in particular a birthday of 02.01, which would fall inside the window
[29.12.2024, 05.01.2025] when re-anchored to 2025 (second conjunct), is
silently omitted. -/
theorem C5_year_anchor (book : AddressBook)
    (hb : ∀ p ∈ book, hasValidBirthday p.2 = true) :
    AddressBook.get_upcoming_birthdays ⟨2024, 12, 29⟩ book =
        Except.ok [] ∧
      (toOrdinal ⟨2024, 12, 29⟩ ≤ toOrdinal ⟨2025, 1, 2⟩ ∧
        toOrdinal ⟨2025, 1, 2⟩ ≤ toOrdinal (addDays ⟨2024, 12, 29⟩ 7)) := by
  constructor
  · unfold AddressBook.get_upcoming_birthdays
    rw [show addDays ⟨2024, 12, 29⟩ 7 = ⟨2025, 1, 5⟩ from by decide]
    exact C5_aux book hb
  · exact ⟨by decide, by decide⟩

/-- Witness for C5: a single record whose birthday 02.01 is missed. -/
theorem C5_year_anchor_witness :
    AddressBook.get_upcoming_birthdays ⟨2024, 12, 29⟩
      [("A".data, ⟨"A".data, [], some ⟨2000, 1, 2⟩⟩)] = Except.ok [] :=
  (C5_year_anchor [("A".data, ⟨"A".data, [], some ⟨2000, 1, 2⟩⟩)]
    (by decide)).1

/-- C6: constructing a `Phone` succeeds exactly on strings of ten decimal
digits, and on any other string it fails with the validation `ValueError`
(no instance is produced). -/
theorem C6_phone_validation (s : PyStr) :
    (Phone.mk' s = Except.ok ⟨s⟩ ↔
      s.length = 10 ∧ ∀ c ∈ s, c.isDigit = true) ∧
    (¬ (s.length = 10 ∧ ∀ c ∈ s, c.isDigit = true) →
      Phone.mk' s = Except.error (PyErr.valueError none)) := by
  have hval : Phone.is_valid s = true ↔
      s.length = 10 ∧ ∀ c ∈ s, c.isDigit = true := by
    unfold Phone.is_valid
    simp [List.all_eq_true, List.isEmpty_iff]
    intro h1 _
    intro hnil
    rw [hnil] at h1
    simp at h1
  refine ⟨⟨?_, ?_⟩, ?_⟩
  · intro h
    by_cases hv : Phone.is_valid s = true
    · exact hval.1 hv
    · unfold Phone.mk' at h
      rw [if_neg hv] at h
      exact Except.noConfusion h
  · intro h
    exact phone_mk_ok (hval.2 h)
  · intro h
    have hv : Phone.is_valid s = false := by
      cases hv : Phone.is_valid s
      · rfl
      · exact absurd (hval.1 hv) h
    exact phone_mk_error hv

/-- Witness for C6 at a valid ten-digit phone string. -/
theorem C6_phone_validation_witness :
    Phone.mk' "0123456789".data = Except.ok ⟨"0123456789".data⟩ :=
  (C6_phone_validation "0123456789".data).1.mpr (by decide)

/-- C8: adding a record named X and then deleting X makes a subsequent
find of X return not-found, and deleting an absent name is a no-op that
raises nothing and leaves the ledger unchanged. -/
theorem C8_delete_semantics (book : AddressBook) (r : Record)
    (name : PyStr)
    (hnodup : (book.map Prod.fst).Nodup)
    (habs : AddressBook.find book name = none) :
    AddressBook.find
        (AddressBook.delete (AddressBook.add_record book r) r.name)
        r.name = none ∧
      AddressBook.delete book name = book := by
  constructor
  · unfold AddressBook.delete
    rw [show AddressBook.find (AddressBook.add_record book r) r.name =
        some r from find_dictSet_self book r.name r]
    exact find_dictDel_self (nodup_keys_dictSet hnodup)
  · unfold AddressBook.delete
    rw [habs]

/-- Witness for C8 on a concrete one-record book. -/
theorem C8_delete_semantics_witness :
    AddressBook.find
        (AddressBook.delete
          (AddressBook.add_record [] (Record.new "X".data))
          (Record.new "X".data).name)
        (Record.new "X".data).name = none :=
  (C8_delete_semantics [] (Record.new "X".data) "Y".data (by decide)
    (by decide)).1

/-- C9: for a name not yet in the book, `add_contact` with an invalid
phone leaves the ledger untouched, while `add_birthday` with an invalid
date inserts the fresh empty record before the validation error fires, so
the ledger IS modified although the command reports an error. -/
theorem C9_atomicity (book : AddressBook) (name phone bstr : PyStr)
    (hname : AddressBook.find book name = none)
    (hphone : Phone.is_valid phone = false)
    (hdate : Birthday.mk' bstr =
      Except.error (PyErr.valueError (some birthdayErrMsg))) :
    add_contact book name phone = (book, "Invalid arguments.") ∧
    add_birthday book name bstr =
      (AddressBook.add_record book (Record.new name),
        "Invalid arguments.") ∧
    AddressBook.find (AddressBook.add_record book (Record.new name))
        name = some (Record.new name) ∧
    AddressBook.add_record book (Record.new name) ≠ book := by
  have h3 : AddressBook.find (AddressBook.add_record book (Record.new name))
      name = some (Record.new name) :=
    find_dictSet_self book name (Record.new name)
  refine ⟨?_, ?_, h3, ?_⟩
  · unfold add_contact
    rw [hname]
    dsimp only [Option.getD]
    rw [show (Record.new name).add_phone phone =
        Except.error (PyErr.valueError none) from by
      unfold Record.add_phone
      rw [phone_mk_error hphone]]
  · unfold add_birthday
    rw [hname]
    dsimp only [Option.getD]
    rw [show (Record.new name).add_birthday bstr =
        Except.error (PyErr.valueError (some birthdayErrMsg)) from by
      unfold Record.add_birthday
      rw [hdate]]
  · intro heq
    rw [heq, hname] at h3
    exact Option.noConfusion h3

/-- Witness for C9: empty book, fresh name, impossible date 31.02.2024. -/
theorem C9_atomicity_witness :
    add_birthday [] "Tom".data "31.02.2024".data =
      (AddressBook.add_record [] (Record.new "Tom".data),
        "Invalid arguments.") :=
  (C9_atomicity [] "Tom".data "123".data "31.02.2024".data rfl
    (by decide) rfl).2.1

/-- C10: in every ledger state reachable from the empty ledger through
the public mutating operations, each key of the mapping equals the name
stored in the record it maps to. -/
theorem C10_key_consistency (book : AddressBook) (h : Reachable book) :
    ∀ p ∈ book, p.1 = p.2.name := by
  induction h with
  | empty =>
    intro p hp
    cases hp
  | add_record b r hb ih => exact inv_add_record ih
  | delete b n hb ih =>
    intro p hp
    exact ih p (mem_delete hp)
  | add_contact b n ph hb ih =>
    intro p hp
    unfold add_contact at hp
    dsimp only at hp
    cases hadd : ((AddressBook.find b n).getD (Record.new n)).add_phone ph
      with
    | error e =>
      rw [hadd] at hp
      dsimp only at hp
      exact ih p hp
    | ok r =>
      rw [hadd] at hp
      dsimp only at hp
      exact inv_add_record ih p hp
  | change_phone b n o q hb ih =>
    intro p hp
    unfold change_phone at hp
    cases hf : AddressBook.find b n with
    | none =>
      rw [hf] at hp
      dsimp only at hp
      exact ih p hp
    | some rec =>
      rw [hf] at hp
      dsimp only at hp
      cases he : rec.edit_phone o q with
      | error e =>
        rw [he] at hp
        dsimp only at hp
        exact ih p hp
      | ok r =>
        rw [he] at hp
        dsimp only at hp
        rcases mem_dictSet hp with h' | h'
        · exact ih p h'
        · subst h'
          show n = r.name
          have hn : n = rec.name := ih (n, rec) (find_mem hf)
          have hr : r.name = rec.name := by
            unfold Record.edit_phone at he
            cases hfi : rec.find_phone_index o with
            | none =>
              rw [hfi] at he
              exact Except.noConfusion he
            | some i =>
              rw [hfi] at he
              cases hmk : Phone.mk' q with
              | error e =>
                rw [hmk] at he
                exact Except.noConfusion he
              | ok ph2 =>
                rw [hmk] at he
                injection he with he
                rw [← he]
          rw [hn, hr]
  | add_birthday b n s hb ih =>
    intro p hp
    unfold add_birthday at hp
    cases hf : AddressBook.find b n with
    | none =>
      rw [hf] at hp
      dsimp only [Option.getD] at hp
      cases hab : (Record.new n).add_birthday s with
      | error e =>
        rw [hab] at hp
        dsimp only at hp
        exact inv_add_record ih p hp
      | ok r =>
        rw [hab] at hp
        dsimp only at hp
        exact inv_add_record (inv_add_record ih) p hp
    | some rec =>
      rw [hf] at hp
      dsimp only [Option.getD] at hp
      cases hab : rec.add_birthday s with
      | error e =>
        rw [hab] at hp
        dsimp only at hp
        exact ih p hp
      | ok r =>
        rw [hab] at hp
        dsimp only at hp
        exact inv_add_record ih p hp

/-- Witness for C10 on a concrete reachable book: in the book produced by
adding contact "Al", the entry at key "Al" stores the name "Al". -/
theorem C10_key_consistency_witness :
    ("Al".data,
        (⟨"Al".data, [⟨"0123456789".data⟩], none⟩ : Record)).1 =
      ("Al".data,
        (⟨"Al".data, [⟨"0123456789".data⟩], none⟩ : Record)).2.name :=
  C10_key_consistency _
    (Reachable.add_contact [] "Al".data "0123456789".data Reachable.empty)
    _ (by decide)

/-- C4: an in-window re-anchored birthday is reported with its
congratulation date shifted forward to the following Monday when it falls
on Saturday or Sunday (`tm_wday` 5 or 6) and unchanged on weekdays;
concretely, for today = 10.06.2024 and the 7-day horizon, 15.06
(Saturday) is reported as 17.06.2024, 12.06 (Wednesday) as 12.06.2024
unchanged, and 20.06 is excluded. -/
theorem C4_weekend_shift (today b bd : Date) (name : PyStr)
    (hrep : replaceYear b today.year = Except.ok bd)
    (hwin1 : dayOfYear today ≤ dayOfYear bd)
    (hwin2 : dayOfYear bd ≤ dayOfYear (addDays today 7)) :
    (AddressBook.get_upcoming_birthdays today
        [(name, ⟨name, [], some b⟩)] =
      Except.ok [⟨name, strftime_dmY (congratulationDate bd)⟩]) ∧
    (weekday bd = 5 ∨ weekday bd = 6 →
      weekday (congratulationDate bd) = 0 ∧
      toOrdinal bd < toOrdinal (congratulationDate bd) ∧
      toOrdinal (congratulationDate bd) ≤ toOrdinal bd + 2) ∧
    (weekday bd ≤ 4 → congratulationDate bd = bd) ∧
    (AddressBook.get_upcoming_birthdays ⟨2024, 6, 10⟩
        [("A".data, ⟨"A".data, [], some ⟨2024, 6, 15⟩⟩),
         ("B".data, ⟨"B".data, [], some ⟨2024, 6, 12⟩⟩),
         ("C".data, ⟨"C".data, [], some ⟨2024, 6, 20⟩⟩)] =
      Except.ok
        [⟨"A".data, "17.06.2024".data⟩,
         ⟨"B".data, "12.06.2024".data⟩]) := by
  have hfields : validDate today.year b.month b.day = true ∧
      bd = ⟨today.year, b.month, b.day⟩ := by
    unfold replaceYear at hrep
    by_cases hv : validDate today.year b.month b.day = true
    · rw [if_pos hv] at hrep
      injection hrep with hrep
      exact ⟨hv, hrep.symm⟩
    · rw [if_neg hv] at hrep
      exact Except.noConfusion hrep
  have hvalid : validYMD bd.year bd.month bd.day = true := by
    rw [hfields.2]
    exact validDate_validYMD hfields.1
  refine ⟨?_, ?_, ?_, rfl⟩
  · unfold AddressBook.get_upcoming_birthdays getUpcomingAux
    dsimp only
    rw [hrep]
    dsimp only
    rw [if_pos (by
      simp only [Bool.and_eq_true, decide_eq_true_eq]
      exact ⟨hwin1, hwin2⟩)]
    rfl
  · intro hwd
    rcases hwd with h5 | h6
    · have hc : congratulationDate bd = addDays bd 2 := by
        unfold congratulationDate
        rw [h5]
        norm_num
      rw [hc, weekday_addDays bd hvalid 2,
        (toOrdinal_addDays bd hvalid 2).1, h5]
      refine ⟨by norm_num, by omega, by omega⟩
    · have hc : congratulationDate bd = addDays bd 1 := by
        unfold congratulationDate
        rw [h6]
        norm_num
      rw [hc, weekday_addDays bd hvalid 1,
        (toOrdinal_addDays bd hvalid 1).1, h6]
      refine ⟨by norm_num, by omega, by omega⟩
  · intro h4
    unfold congratulationDate
    rw [if_neg (by
      simp only [Bool.or_eq_true, beq_iff_eq]
      omega)]

/-- Witness for C4: birthday 15.06.2001 re-anchored to Saturday
15.06.2024 is congratulated on Monday 17.06.2024. -/
theorem C4_weekend_shift_witness :
    AddressBook.get_upcoming_birthdays ⟨2024, 6, 10⟩
        [("S".data, ⟨"S".data, [], some ⟨2001, 6, 15⟩⟩)] =
      Except.ok [⟨"S".data, "17.06.2024".data⟩] :=
  ((C4_weekend_shift ⟨2024, 6, 10⟩ ⟨2001, 6, 15⟩ ⟨2024, 6, 15⟩ "S".data
    rfl (by decide) (by decide)).1).trans rfl

/-! ### Lemmas on dot-splitting, for the birthday parser -/

theorem splitDots_ne_nil (s : PyStr) : splitDots s ≠ [] := by
  induction s with
  | nil => simp [splitDots]
  | cons c t ih =>
    unfold splitDots
    by_cases h : c = '.'
    · simp [h]
    · rw [if_neg h]
      cases hs : splitDots t with
      | nil => simp
      | cons a l => simp

theorem joinDots_splitDots (s : PyStr) : joinDots (splitDots s) = s := by
  induction s with
  | nil => rfl
  | cons c t ih =>
    unfold splitDots
    by_cases h : c = '.'
    · rw [if_pos h]
      cases hs : splitDots t with
      | nil => exact absurd hs (splitDots_ne_nil t)
      | cons a l =>
        rw [hs] at ih
        show joinDots ([] :: a :: l) = c :: t
        rw [show joinDots ([] :: a :: l) = '.' :: joinDots (a :: l) from
          rfl, ih, h]
    · rw [if_neg h]
      cases hs : splitDots t with
      | nil => exact absurd hs (splitDots_ne_nil t)
      | cons a l =>
        rw [hs] at ih
        cases l with
        | nil =>
          show c :: a = c :: t
          rw [show joinDots [a] = a from rfl] at ih
          rw [ih]
        | cons b l2 =>
          show (c :: a) ++ '.' :: joinDots (b :: l2) = c :: t
          rw [show joinDots (a :: b :: l2) =
            a ++ '.' :: joinDots (b :: l2) from rfl] at ih
          simp only [List.cons_append]
          rw [ih]

theorem splitDots_append (a t : PyStr) (ha : ∀ c ∈ a, c ≠ '.') :
    splitDots (a ++ '.' :: t) = a :: splitDots t := by
  induction a with
  | nil => simp [splitDots]
  | cons c a2 ih =>
    have hc : c ≠ '.' := ha c (List.mem_cons_self _ _)
    show splitDots (c :: (a2 ++ '.' :: t)) = (c :: a2) :: splitDots t
    unfold splitDots
    rw [if_neg hc, ih (fun x hx => ha x (List.mem_cons_of_mem _ hx))]
    simp
    conv_lhs => unfold splitDots

theorem splitDots_dotfree (s : PyStr) (h : ∀ c ∈ s, c ≠ '.') :
    splitDots s = [s] := by
  induction s with
  | nil => rfl
  | cons c t ih =>
    unfold splitDots
    rw [if_neg (h c (List.mem_cons_self _ _)),
      ih (fun x hx => h x (List.mem_cons_of_mem _ hx))]

theorem digit_ne_dot {c : Char} (h : c.isDigit = true) : c ≠ '.' := by
  intro he
  rw [he] at h
  exact absurd h (by decide)

theorem matchDay_spell (s : PyStr) :
    matchDay s = true ↔
      s ≠ [] ∧ s.length ≤ 2 ∧ (∀ c ∈ s, c.isDigit = true) ∧
        1 ≤ toNatChars s ∧ toNatChars s ≤ 31 := by
  unfold matchDay
  simp [List.all_eq_true, List.isEmpty_iff, and_assoc]

theorem matchMonth_spell (s : PyStr) :
    matchMonth s = true ↔
      s ≠ [] ∧ s.length ≤ 2 ∧ (∀ c ∈ s, c.isDigit = true) ∧
        1 ≤ toNatChars s ∧ toNatChars s ≤ 12 := by
  unfold matchMonth
  simp [List.all_eq_true, List.isEmpty_iff, and_assoc]

theorem matchYear_spell (s : PyStr) :
    matchYear s = true ↔ s.length = 4 ∧ (∀ c ∈ s, c.isDigit = true) := by
  unfold matchYear
  simp [List.all_eq_true, and_assoc]

theorem birthday_ok_destruct {s : PyStr} {d : Date}
    (hok : Birthday.mk' s = Except.ok d) :
    ∃ ds ms ys, splitDots s = [ds, ms, ys] ∧
      matchDay ds = true ∧ matchMonth ms = true ∧ matchYear ys = true ∧
      d = ⟨toNatChars ys, toNatChars ms, toNatChars ds⟩ ∧
      validDate (toNatChars ys) (toNatChars ms) (toNatChars ds) =
        true := by
  unfold Birthday.mk' at hok
  cases hsp : strptime_dmY s with
  | none =>
    rw [hsp] at hok
    exact Except.noConfusion hok
  | some tri =>
    obtain ⟨dd, mm, yy⟩ := tri
    rw [hsp] at hok
    dsimp only at hok
    by_cases hv : validDate yy mm dd = true
    · rw [if_pos hv] at hok
      injection hok with hok
      unfold strptime_dmY at hsp
      cases hsd : splitDots s with
      | nil =>
        rw [hsd] at hsp
        exact Option.noConfusion hsp
      | cons a l1 =>
        cases l1 with
        | nil =>
          rw [hsd] at hsp
          exact Option.noConfusion hsp
        | cons b l2 =>
          cases l2 with
          | nil =>
            rw [hsd] at hsp
            exact Option.noConfusion hsp
          | cons c l3 =>
            cases l3 with
            | nil =>
              rw [hsd] at hsp
              dsimp only at hsp
              by_cases hm :
                  (matchDay a && matchMonth b && matchYear c) = true
              · rw [if_pos hm] at hsp
                injection hsp with hsp
                have h1 : toNatChars a = dd := congrArg Prod.fst hsp
                have h2 : toNatChars b = mm :=
                  congrArg (fun p => p.2.1) hsp
                have h3 : toNatChars c = yy :=
                  congrArg (fun p => p.2.2) hsp
                simp only [Bool.and_eq_true] at hm
                refine ⟨a, b, c, rfl, hm.1.1, hm.1.2, hm.2, ?_, ?_⟩
                · rw [← hok, ← h1, ← h2, ← h3]
                · rw [h3, h2, h1]
                  exact hv
              · rw [if_neg hm] at hsp
                exact Option.noConfusion hsp
            | cons e l4 =>
              rw [hsd] at hsp
              exact Option.noConfusion hsp
    · rw [if_neg hv] at hok
      exact Except.noConfusion hok

theorem birthday_ok_construct (ds ms ys : PyStr)
    (hd1 : ds ≠ []) (hd2 : ds.length ≤ 2)
    (hd3 : ∀ c ∈ ds, c.isDigit = true)
    (hm1 : ms ≠ []) (hm2 : ms.length ≤ 2)
    (hm3 : ∀ c ∈ ms, c.isDigit = true)
    (hy1 : ys.length = 4) (hy2 : ∀ c ∈ ys, c.isDigit = true)
    (hv : validDate (toNatChars ys) (toNatChars ms) (toNatChars ds) =
      true) :
    Birthday.mk' (ds ++ '.' :: (ms ++ '.' :: ys)) =
      Except.ok ⟨toNatChars ys, toNatChars ms, toNatChars ds⟩ := by
  have hsplit : splitDots (ds ++ '.' :: (ms ++ '.' :: ys)) =
      [ds, ms, ys] := by
    rw [splitDots_append ds _ (fun c hc => digit_ne_dot (hd3 c hc)),
      splitDots_append ms _ (fun c hc => digit_ne_dot (hm3 c hc)),
      splitDots_dotfree ys (fun c hc => digit_ne_dot (hy2 c hc))]
  obtain ⟨hy, hy9, hmm1, hmm12, hdd1, hddm⟩ := (validDate_spell _ _ _).1 hv
  have hmd : matchDay ds = true :=
    (matchDay_spell ds).2 ⟨hd1, hd2, hd3, hdd1,
      le_trans hddm (daysInMonth_le_31 _ _)⟩
  have hmo : matchMonth ms = true :=
    (matchMonth_spell ms).2 ⟨hm1, hm2, hm3, hmm1, hmm12⟩
  have hmy : matchYear ys = true := (matchYear_spell ys).2 ⟨hy1, hy2⟩
  have hsp : strptime_dmY (ds ++ '.' :: (ms ++ '.' :: ys)) =
      some (toNatChars ds, toNatChars ms, toNatChars ys) := by
    unfold strptime_dmY
    rw [hsplit]
    dsimp only
    rw [if_pos (by rw [hmd, hmo, hmy]; rfl)]
  unfold Birthday.mk'
  rw [hsp]
  dsimp only
  rw [if_pos hv]

/-- C7 counterexample: `strptime` accepts single-digit day and month
(leading zero optional), so the not-well-formed string "1.1.2024" is
accepted by the Birthday constructor — refuting "succeeds exactly for
well-formed DD.MM.YYYY strings". -/
theorem C7_counterexample :
    Birthday.mk' "1.1.2024".data = Except.ok ⟨2024, 1, 1⟩ ∧
      spec_wellformed_DDMMYYYY "1.1.2024".data = false :=
  ⟨rfl, rfl⟩

/-- C7 amended: Birthday construction succeeds exactly for strings
day.month.year in which day and month have one or two digits (leading
zero optional, as `strptime` matches them), the year exactly four
digits, and the three numbers denote a real calendar date; the stored
value round-trips to that date, and every failure carries the
human-readable format hint. -/
theorem C7_amended (s : PyStr) :
    ((∃ d, Birthday.mk' s = Except.ok d) ↔
      ∃ ds ms ys, s = ds ++ '.' :: (ms ++ '.' :: ys) ∧
        ds ≠ [] ∧ ds.length ≤ 2 ∧ (∀ c ∈ ds, c.isDigit = true) ∧
        ms ≠ [] ∧ ms.length ≤ 2 ∧ (∀ c ∈ ms, c.isDigit = true) ∧
        ys.length = 4 ∧ (∀ c ∈ ys, c.isDigit = true) ∧
        validDate (toNatChars ys) (toNatChars ms) (toNatChars ds) =
          true) ∧
    (∀ d, Birthday.mk' s = Except.ok d →
      ∃ ds ms ys, s = ds ++ '.' :: (ms ++ '.' :: ys) ∧
        d = ⟨toNatChars ys, toNatChars ms, toNatChars ds⟩ ∧
        validDate d.year d.month d.day = true) ∧
    (∀ e, Birthday.mk' s = Except.error e →
      e = PyErr.valueError (some birthdayErrMsg)) := by
  refine ⟨⟨?_, ?_⟩, ?_, ?_⟩
  · rintro ⟨d, hok⟩
    obtain ⟨ds, ms, ys, hsd, hmd, hmo, hmy, hd, hv⟩ :=
      birthday_ok_destruct hok
    obtain ⟨d1, d2, d3, _, _⟩ := (matchDay_spell ds).1 hmd
    obtain ⟨m1, m2, m3, _, _⟩ := (matchMonth_spell ms).1 hmo
    obtain ⟨y1, y2⟩ := (matchYear_spell ys).1 hmy
    refine ⟨ds, ms, ys, ?_, d1, d2, d3, m1, m2, m3, y1, y2, hv⟩
    rw [← joinDots_splitDots s, hsd]
    rfl
  · rintro ⟨ds, ms, ys, hs, d1, d2, d3, m1, m2, m3, y1, y2, hv⟩
    subst hs
    exact ⟨_, birthday_ok_construct ds ms ys d1 d2 d3 m1 m2 m3 y1 y2 hv⟩
  · intro d hok
    obtain ⟨ds, ms, ys, hsd, hmd, hmo, hmy, hd, hv⟩ :=
      birthday_ok_destruct hok
    refine ⟨ds, ms, ys, ?_, hd, ?_⟩
    · rw [← joinDots_splitDots s, hsd]
      rfl
    · subst hd
      exact hv
  · intro e herr
    unfold Birthday.mk' at herr
    cases hsp : strptime_dmY s with
    | none =>
      rw [hsp] at herr
      dsimp only at herr
      injection herr with herr
      exact herr.symm
    | some tri =>
      obtain ⟨dd, mm, yy⟩ := tri
      rw [hsp] at herr
      dsimp only at herr
      by_cases hv : validDate yy mm dd = true
      · rw [if_pos hv] at herr
        exact Except.noConfusion herr
      · rw [if_neg hv] at herr
        injection herr with herr
        exact herr.symm

/-- Witness for C7 amended: "5.6.2001" (single-digit day and month) is
accepted. -/
theorem C7_amended_witness :
    ∃ d, Birthday.mk' "5.6.2001".data = Except.ok d :=
  (C7_amended "5.6.2001".data).1.mpr
    ⟨"5".data, "6".data, "2001".data, by decide, by decide, by decide,
      by decide, by decide, by decide, by decide, by decide, by decide,
      by decide⟩

end Task1
